import Mathlib

/-!
Verification of the docs2llms documentation-bundling pipeline.

The definitions below are a shallow embedding of the TypeScript sources
(src/mod.ts, with src/index.ts and src/docs2llms.ts as sibling variants):
a filesystem tree is an inductive value, the recursive directory walk
becomes a structurally recursive function, the Deno file API (stat /
copyFile / writeTextFile / readTextFile) becomes explicit state passing
over a store mapping paths to file states, and fallible operations return
Except values. JS string primitives (endsWith, startsWith, toLowerCase,
split) are rendered as executable functions on the character list of a
Lean String.
-/

namespace Docs2llms

/-- A directory listing, as enumerated by Deno.readDir, in the filesystem's
directory-listing order. Each entry is a regular file (with its name, its
size in bytes as reported by Deno.stat, and its text content as returned by
Deno.readTextFile) or a subdirectory holding its own listing. -/
inductive FsList where
  | nil
  | file (name : String) (size : Nat) (content : String) (rest : FsList)
  | dir (name : String) (entries : FsList) (rest : FsList)
deriving DecidableEq

/-- JS String.prototype.endsWith: the second string is a suffix of the
first. -/
def strEndsWith (s post : String) : Bool :=
  post.data.isSuffixOf s.data

/-- JS String.prototype.startsWith: the second string is a prefix of the
first. -/
def strStartsWith (s pre : String) : Bool :=
  pre.data.isPrefixOf s.data

/-- JS String.prototype.toLowerCase, for the ASCII answers compared by the
sources ("y" confirmations). -/
def stringToLower (s : String) : String :=
  String.mk (s.data.map Char.toLower)

/-- The constant IGNORE_DIRECTORIES from src/mod.ts. -/
def IGNORE_DIRECTORIES : List String := ["node_modules", ".git", "dist", "build"]

/-- The constant SUPPORTED_EXTENSIONS from src/mod.ts. -/
def SUPPORTED_EXTENSIONS : List String := [".md", ".mdx", ".txt", ".rst"]

/-- skipDirectory from src/mod.ts: a directory is skipped when its name is
in the skip list, starts with ".", or is one of the built-in ignored
directories. -/
def skipDirectory (dirName : String) (skip : List String) : Bool :=
  skip.contains dirName || strStartsWith dirName "." ||
    IGNORE_DIRECTORIES.contains dirName

/-- join(a, b) from the std path library, for the plain relative segments
produced by the walk (the sources only ever join a directory path with an
entry name). -/
def pathJoin (a b : String) : String := a ++ "/" ++ b

/-- relative(base, p) from the std path library, for the inputs arising in
the walk: every entry path handed to it extends the base path by "/" and
further segments, so the relative path is the suffix after the separator. -/
def pathRelative (base p : String) : String :=
  if (base ++ "/").data.isPrefixOf p.data then
    String.mk (p.data.drop (base.data.length + 1))
  else p

/-- The walk's size filter in src/mod.ts line 110: size <= maxSize*1024*1024.
The maxSize configuration is in megabytes and defaults to Infinity, which we
model as none (no bound). -/
def sizeOk (size : Nat) (maxSize : Option Nat) : Bool :=
  match maxSize with
  | none => true
  | some m => size ≤ m * 1024 * 1024

/-- The walk's extension filter in src/mod.ts lines 106-107: the entry name
must end with a supported extension and must not end with any excluded
extension (raw string suffix tests on the whole filename). -/
def matchesFile (name : String) (exclude : List String) : Bool :=
  SUPPORTED_EXTENSIONS.any (fun ext => strEndsWith name ext) &&
    !(exclude.any (fun ext => strEndsWith name ext))

/-- The complete per-file inclusion test of src/mod.ts lines 105-113. -/
def includeFile (name : String) (size : Nat) (exclude : List String)
    (maxSize : Option Nat) : Bool :=
  matchesFile name exclude && sizeOk size maxSize

/-- processDirectory from src/mod.ts lines 98-116: iterate over a directory
listing in order; a file entry is pushed onto the files and fullPaths arrays
(in lockstep) when it passes the extension and size filters; a directory
entry is recursed into unless skipDirectory holds for its name. -/
def walkList (skip exclude : List String) (maxSize : Option Nat)
    (basePath : String) : String → FsList → List String × List String
  | _, .nil => ([], [])
  | currentPath, .file name size _content rest =>
    let tail := walkList skip exclude maxSize basePath currentPath rest
    if includeFile name size exclude maxSize then
      (pathRelative basePath (pathJoin currentPath name) :: tail.1,
        pathJoin currentPath name :: tail.2)
    else tail
  | currentPath, .dir name sub rest =>
    let head :=
      if skipDirectory name skip then ([], [])
      else walkList skip exclude maxSize basePath (pathJoin currentPath name) sub
    let tail := walkList skip exclude maxSize basePath currentPath rest
    (head.1 ++ tail.1, head.2 ++ tail.2)

/-- getDirectory from src/mod.ts lines 83-121: walk the tree rooted at
dirPath (given as its listing) and return the matched relative paths
(files) and full paths (fullPaths). -/
def getDirectory (dirPath basePath : String) (skip exclude : List String)
    (maxSize : Option Nat) (tree : FsList) : List String × List String :=
  walkList skip exclude maxSize basePath dirPath tree

/-- One file occurrence of the tree: the names of the directories between
the traversal root and the file, the file's full path, its name and its
size. Used to state what the walk is specified to match. -/
structure FileOcc where
  ancestors : List String
  path : String
  name : String
  size : Nat
deriving DecidableEq

/-- Every file occurrence of the tree, in directory-entries traversal
order, with no skipping at all. -/
def enumFiles : String → List String → FsList → List FileOcc
  | _, _, .nil => []
  | cur, anc, .file name size _content rest =>
    { ancestors := anc, path := pathJoin cur name, name := name, size := size } ::
      enumFiles cur anc rest
  | cur, anc, .dir name sub rest =>
    enumFiles (pathJoin cur name) (anc ++ [name]) sub ++ enumFiles cur anc rest

/-- The specified matching condition for one file occurrence: no ancestor
directory is skipped, the name passes the recognized-extension and
excluded-extension suffix tests, and the size is within the limit. -/
def includedOcc (skip exclude : List String) (maxSize : Option Nat)
    (o : FileOcc) : Bool :=
  o.ancestors.all (fun d => !skipDirectory d skip) &&
    includeFile o.name o.size exclude maxSize

/-- basename from the std path library: the last "/"-separated component. -/
def basename (p : String) : String :=
  String.mk ((p.data.reverse.takeWhile (fun c => !(c == '/'))).reverse)

/-- The global regex replacement of src/mod.ts line 176:
basename(llmsFilePath).replace(ratio of ".txt" or "llms-", ""), scanning
left to right and deleting every occurrence of ".txt" or "llms-". -/
def stripTokens : List Char → List Char
  | '.' :: 't' :: 'x' :: 't' :: rest => stripTokens rest
  | 'l' :: 'l' :: 'm' :: 's' :: '-' :: rest => stripTokens rest
  | c :: cs => c :: stripTokens cs
  | [] => []

/-- repositoryName from src/mod.ts line 176. -/
def repositoryName (llmsFilePath : String) : String :=
  String.mk (stripTokens (basename llmsFilePath).data)

/-- The heading of the link index, src/mod.ts line 178. -/
def heading (llmsFilePath : String) : String :=
  "# " ++ repositoryName llmsFilePath ++ "\n\n"

/-- One link-index entry, src/mod.ts line 180: a Markdown link whose text
is the file's base name and whose target is the (relative) file path. -/
def fileLink (file : String) : String :=
  "- [" ++ basename file ++ "](" ++ file ++ ")"

/-- The full text written to the llms file, src/mod.ts lines 178-183:
heading plus the newline-joined link entries. -/
def linkIndexContent (llmsFilePath : String) (files : List String) : String :=
  heading llmsFilePath ++ String.intercalate "\n" (files.map fileLink)

/-- The full text written to the llms-full file, src/mod.ts lines 185-188:
the contents of all matched files joined by a blank line. The read oracle
is Deno.readTextFile. -/
def fullContentOutput (read : String → String) (fullPaths : List String) : String :=
  String.intercalate "\n\n" (fullPaths.map read)

/-- The state of one path on disk: absent (stat throws NotFound), present
but failing with some other I/O error when operated on, or readable with
the given content. -/
inductive FileState where
  | absent
  | faulty
  | ok (content : String)
deriving DecidableEq

/-- The store of output files: what each path currently holds. -/
def Store : Type := String → FileState

/-- Deno.writeTextFile and the destination side of Deno.copyFile: replace
whatever the path held before (truncating write). -/
def setFile (σ : Store) (p : String) (c : FileState) : Store :=
  fun q => if q = p then c else σ q

/-- The error kinds distinguished by writeFiles: Deno.errors.NotFound
versus every other I/O failure. -/
inductive IOErr where
  | notFound
  | other
deriving DecidableEq

/-- One backup block of writeFiles, src/mod.ts lines 145-158 (and 160-173):
stat the output path and copy it to a sibling ".bak" path; a NotFound
failure is caught and ignored, any other failure propagates. -/
def backupFile (σ : Store) (p : String) : Except IOErr Store :=
  match σ p with
  | .absent => .ok σ
  | .faulty => .error .other
  | .ok c => .ok (setFile σ (p ++ ".bak") (.ok c))

/-- The backup section of writeFiles, src/mod.ts lines 144-174: when the
backup flag is set, back up the llms output path and then the llms-full
output path, propagating every non-NotFound failure. -/
def backupPhase (σ : Store) (llmsFilePath llmsFullFilePath : String)
    (backup : Bool) : Except IOErr Store :=
  if backup then
    match backupFile σ llmsFilePath with
    | .error e => .error e
    | .ok σ1 =>
      match backupFile σ1 llmsFullFilePath with
      | .error e => .error e
      | .ok σ2 => .ok σ2
  else .ok σ

/-- writeFiles from src/mod.ts lines 133-191: optionally back up the two
output paths, then write the link index and the full content, each write
replacing the previous file contents entirely. -/
def writeFiles (σ : Store) (read : String → String)
    (llmsFile llmsFullFile : String) (files fullPaths : List String)
    (outputDir : String) (backup : Bool) : Except IOErr Store :=
  match backupPhase σ (pathJoin outputDir llmsFile)
    (pathJoin outputDir llmsFullFile) backup with
  | .error e => .error e
  | .ok σ2 =>
    .ok (setFile
      (setFile σ2 (pathJoin outputDir llmsFile)
        (.ok (linkIndexContent (pathJoin outputDir llmsFile) files)))
      (pathJoin outputDir llmsFullFile)
      (.ok (fullContentOutput read fullPaths)))

/-- Counts the maximal runs of characters satisfying p, given whether the
previous character satisfied p. -/
def runsAux (p : Char → Bool) : Bool → List Char → Nat
  | _, [] => 0
  | prev, c :: cs => (if p c && !prev then 1 else 0) + runsAux p (p c) cs

/-- JS content.split(ws regex).length as computed by analyzeOption in
src/mod.ts line 228: splitting on maximal whitespace runs yields one more
segment than there are whitespace runs (leading or trailing whitespace
contributes empty segments, and the empty string yields one segment). -/
def splitWsLen (s : String) : Nat :=
  runsAux (fun c => c.isWhitespace) false s.data + 1

/-- The whitespace-delimited word count in the sense of the specification:
the number of maximal non-whitespace runs of the content. -/
def wordCount (s : String) : Nat :=
  runsAux (fun c => !c.isWhitespace) false s.data

/-- fullPath.substring(0, fullPath.lastIndexOf("/")) from src/mod.ts line
230: the characters before the last "/", or "" when there is none
(substring(0, -1) is empty). -/
def parentDir (p : String) : String :=
  let r := p.data.reverse
  if r.contains '/' then
    String.mk (((r.dropWhile (fun c => !(c == '/'))).drop 1).reverse)
  else ""

/-- The numbers printed by analyzeOption, src/mod.ts lines 219-241. -/
structure Analysis where
  folderCount : Nat
  fileCount : Nat
  totalWords : Nat
  totalSize : Nat
deriving DecidableEq

/-- analyzeOption from src/mod.ts lines 219-241: the folder set is the set
of distinct parent strings of the full paths, the file count is the length
of the files array, the word total adds content.split(ws).length per file,
and the size total adds the stat size per file. -/
def analyzeOption (read : String → String) (statSize : String → Nat)
    (files fullPaths : List String) : Analysis :=
  { folderCount := ((fullPaths.map parentDir).dedup).length
    fileCount := files.length
    totalWords := (fullPaths.map (fun p => splitWsLen (read p))).sum
    totalSize := (fullPaths.map statSize).sum }

/-- The average file size printed by analyzeOption, src/mod.ts lines
238-240: totalSize / files.length / 1024, in kilobytes. -/
def averageKB (a : Analysis) : ℚ :=
  (a.totalSize : ℚ) / (a.fileCount : ℚ) / 1024

/-- The interactive confirmation loop of src/index.ts lines 371-385: walk
the files and fullPaths arrays at equal indices, prompting per file, and
keep exactly the pairs whose answer lowercases to "y". The answer oracle
receives the index and the relative path shown in the prompt. -/
def interactiveConfirm (answer : Nat → String → String) :
    Nat → List String → List String → List String × List String
  | _, [], _ => ([], [])
  | _, _ :: _, [] => ([], [])
  | i, f :: fs, p :: ps =>
    let rest := interactiveConfirm answer (i + 1) fs ps
    if stringToLower (answer i f) == "y" then (f :: rest.1, p :: rest.2)
    else rest

/-- The mode dispatch of main in src/mod.ts lines 426-460, reduced to the
observable output contents: after the walk, a preview run whose
confirmation answer does not lowercase to "y" exits before writing; an
analyze run exits before writing; a summary run exits before writing;
otherwise writeFiles emits the link index and the full content (returned
here as the pair of output texts). -/
def runMain (tree : FsList) (read : String → String) (dirPath : String)
    (skip exclude : List String) (maxSize : Option Nat)
    (preview analyze summary : Bool) (promptAnswer : String)
    (llmsFile _llmsFullFile outputDir : String) : Option (String × String) :=
  let res := getDirectory dirPath dirPath skip exclude maxSize tree
  if preview && !(stringToLower promptAnswer == "y") then none
  else if analyze then none
  else if summary then none
  else some (linkIndexContent (pathJoin outputDir llmsFile) res.1,
    fullContentOutput read res.2)

/-- The write path of main as a store transformer: walk the source tree,
then run writeFiles against the current store of output files. -/
def runPipeline (tree : FsList) (read : String → String) (dirPath : String)
    (skip exclude : List String) (maxSize : Option Nat)
    (llmsFile llmsFullFile outputDir : String) (backup : Bool) (σ : Store) :
    Except IOErr Store :=
  writeFiles σ read llmsFile llmsFullFile
    (getDirectory dirPath dirPath skip exclude maxSize tree).1
    (getDirectory dirPath dirPath skip exclude maxSize tree).2 outputDir backup

example :
    getDirectory "r" "r" [] [] none
      (.file "a.md" 3 "abc"
        (.dir "docs" (.file "g.md" 2 "hi" .nil)
          (.file "b.png" 1 "x" .nil))) =
      (["a.md", "docs/g.md"], ["r/a.md", "r/docs/g.md"]) := by decide

example :
    getDirectory "r" "r" ["skip"] [] none
      (.file "a.md" 1 ""
        (.file "b.txt" 1 ""
          (.dir "skip" (.file "c.md" 1 "" .nil) .nil))) =
      (["a.md", "b.txt"], ["r/a.md", "r/b.txt"]) := by decide

example :
    getDirectory "r" "r" [] ["txt"] none
      (.file "a.md" 1 "" (.file "b.txt" 1 "" .nil)) =
      (["a.md"], ["r/a.md"]) := by decide

example : linkIndexContent "llms.txt" ["docs/g.md"] =
    "# llms\n\n- [g.md](docs/g.md)" := by decide

example : repositoryName "llms-demo.txt" = "demo" := by decide

example : splitWsLen "one two\n" = 3 := by decide

example : wordCount "one two\n" = 2 := by decide

example : parentDir "r/docs/g.md" = "r/docs" := by decide

example : parentDir "g.md" = "" := by decide

example : stringToLower "Y" = "y" := by decide

theorem enumFiles_anc_mem :
    ∀ (t : FsList) (cur : String) (anc : List String) (o : FileOcc),
      o ∈ enumFiles cur anc t → ∀ d ∈ anc, d ∈ o.ancestors := by
  intro t
  induction t with
  | nil => intro cur anc o ho; simp [enumFiles] at ho
  | file name size content rest ih =>
    intro cur anc o ho d hd
    simp only [enumFiles, List.mem_cons] at ho
    rcases ho with h | h
    · subst h; exact hd
    · exact ih cur anc o h d hd
  | dir name sub rest ihsub ihrest =>
    intro cur anc o ho d hd
    simp only [enumFiles, List.mem_append] at ho
    rcases ho with h | h
    · exact ihsub _ _ o h d (by simp [hd])
    · exact ihrest cur anc o h d hd

theorem filter_enum_skipped (skip exclude : List String) (maxSize : Option Nat)
    (t : FsList) (cur : String) (anc : List String) (d : String)
    (hd : d ∈ anc) (hskip : skipDirectory d skip = true) :
    (enumFiles cur anc t).filter (includedOcc skip exclude maxSize) = [] := by
  apply List.filter_eq_nil_iff.mpr
  intro o ho hinc
  have hmem := enumFiles_anc_mem t cur anc o ho d hd
  simp only [includedOcc, Bool.and_eq_true, List.all_eq_true] at hinc
  have hfalse := hinc.1 d hmem
  simp [hskip] at hfalse

theorem walkList_eq_filter (skip exclude : List String) (maxSize : Option Nat)
    (base : String) :
    ∀ (t : FsList) (cur : String) (anc : List String),
      anc.all (fun d => !skipDirectory d skip) = true →
      walkList skip exclude maxSize base cur t =
        (((enumFiles cur anc t).filter (includedOcc skip exclude maxSize)).map
            (fun o => pathRelative base o.path),
          ((enumFiles cur anc t).filter (includedOcc skip exclude maxSize)).map
            (fun o => o.path)) := by
  intro t
  induction t with
  | nil => intro cur anc h; simp [walkList, enumFiles]
  | file name size content rest ih =>
    intro cur anc h
    have ht := ih cur anc h
    by_cases hf : includeFile name size exclude maxSize = true
    · simp [walkList, enumFiles, ht, List.filter_cons, includedOcc, h, hf]
    · have hf' : includeFile name size exclude maxSize = false := by
        simpa using hf
      simp [walkList, enumFiles, ht, List.filter_cons, includedOcc, h, hf']
  | dir name sub rest ihsub ihrest =>
    intro cur anc h
    have ht := ihrest cur anc h
    by_cases hs : skipDirectory name skip = true
    · have hsub := filter_enum_skipped skip exclude maxSize sub
        (pathJoin cur name) (anc ++ [name]) name (by simp) hs
      simp [walkList, enumFiles, hs, ht, List.filter_append, hsub]
    · have hs' : skipDirectory name skip = false := by simpa using hs
      have hanc : (anc ++ [name]).all (fun d => !skipDirectory d skip) = true := by
        simp [List.all_append, h, hs']
      have hsubeq := ihsub (pathJoin cur name) (anc ++ [name]) hanc
      simp [walkList, enumFiles, hs', ht, hsubeq, List.filter_append]

theorem getDirectory_eq_filter (dirPath basePath : String)
    (skip exclude : List String) (maxSize : Option Nat) (tree : FsList) :
    getDirectory dirPath basePath skip exclude maxSize tree =
      (((enumFiles dirPath [] tree).filter (includedOcc skip exclude maxSize)).map
          (fun o => pathRelative basePath o.path),
        ((enumFiles dirPath [] tree).filter (includedOcc skip exclude maxSize)).map
          (fun o => o.path)) :=
  walkList_eq_filter skip exclude maxSize basePath tree dirPath [] (by simp)

theorem getDirectory_fst_eq (dirPath basePath : String)
    (skip exclude : List String) (maxSize : Option Nat) (tree : FsList) :
    (getDirectory dirPath basePath skip exclude maxSize tree).1 =
      (getDirectory dirPath basePath skip exclude maxSize tree).2.map
        (fun p => pathRelative basePath p) := by
  rw [getDirectory_eq_filter]
  simp [List.map_map]

/-- C1: for every directory tree, getDirectory returns exactly the regular
files whose name ends with a recognized extension, that lie under no
directory whose name is in the skip set or begins with "." or is in the
built-in ignore list, whose name ends with no excluded extension, and whose
size is at or under the size limit — each exactly once, in
directory-entries traversal order, and no other file. -/
theorem getDirectory_matches_spec (dirPath basePath : String)
    (skip exclude : List String) (maxSize : Option Nat) (tree : FsList) :
    getDirectory dirPath basePath skip exclude maxSize tree =
      (((enumFiles dirPath [] tree).filter (includedOcc skip exclude maxSize)).map
          (fun o => pathRelative basePath o.path),
        ((enumFiles dirPath [] tree).filter (includedOcc skip exclude maxSize)).map
          (fun o => o.path)) :=
  walkList_eq_filter skip exclude maxSize basePath tree dirPath [] (by simp)

/-- C2: the link index written by writeFiles is a single heading line
followed by exactly one Markdown link entry per matched file, in order,
whose link text is the file's base name and whose link target is that
file's full path made relative to the traversal root. -/
theorem linkIndex_entries_spec (dirPath basePath llmsFilePath : String)
    (skip exclude : List String) (maxSize : Option Nat) (tree : FsList) :
    linkIndexContent llmsFilePath
        (getDirectory dirPath basePath skip exclude maxSize tree).1 =
      heading llmsFilePath ++ String.intercalate "\n"
        ((getDirectory dirPath basePath skip exclude maxSize tree).2.map
          (fun p => "- [" ++ basename (pathRelative basePath p) ++ "](" ++
            pathRelative basePath p ++ ")")) := by
  rw [linkIndexContent, getDirectory_fst_eq]
  simp only [List.map_map]
  rfl

theorem writeFiles_ok_contents (σ : Store) (read : String → String)
    (lf lff : String) (files fullPaths : List String) (outDir : String)
    (bk : Bool) (σ' : Store)
    (h : writeFiles σ read lf lff files fullPaths outDir bk = .ok σ') :
    σ' (pathJoin outDir lff) = .ok (fullContentOutput read fullPaths) ∧
    (pathJoin outDir lf ≠ pathJoin outDir lff →
      σ' (pathJoin outDir lf) =
        .ok (linkIndexContent (pathJoin outDir lf) files)) := by
  unfold writeFiles at h
  split at h
  · exact absurd h (by simp)
  · injection h with h
    subst h
    refine ⟨by simp [setFile], fun hne => ?_⟩
    simp [setFile, hne]

theorem append_bak_ne (s : String) : s ++ ".bak" ≠ s := by
  intro h
  have h2 := congrArg String.length h
  rw [String.length_append] at h2
  have h3 : (".bak" : String).length = 4 := rfl
  rw [h3] at h2
  omega

/-- C3: whenever writeFiles succeeds, the full-content output holds exactly
the contents of the matched files joined by a blank line, in traversal
order, and the link-index output holds exactly the heading plus the link
lines — independently of whatever the output paths held before the run
(both files are truncated and fully rewritten). -/
theorem writeFiles_truncate_spec (σ : Store) (read : String → String)
    (lf lff : String) (files fullPaths : List String) (outDir : String)
    (bk : Bool) (σ' : Store)
    (h : writeFiles σ read lf lff files fullPaths outDir bk = .ok σ') :
    σ' (pathJoin outDir lff) = .ok (String.intercalate "\n\n" (fullPaths.map read)) ∧
    (pathJoin outDir lf ≠ pathJoin outDir lff →
      σ' (pathJoin outDir lf) =
        .ok (linkIndexContent (pathJoin outDir lf) files)) :=
  writeFiles_ok_contents σ read lf lff files fullPaths outDir bk σ' h

/-- The Deno.readTextFile oracle used by the concrete examples. -/
def demoRead : String → String := fun _ => "hello"

/-- A store with no output files on disk. -/
def emptyStore : Store := fun _ => FileState.absent

/-- The store left by a run over the one-file demo tree. -/
def c3store : Store :=
  setFile (setFile emptyStore (pathJoin "." "llms.txt")
    (.ok (linkIndexContent (pathJoin "." "llms.txt") ["a.md"])))
    (pathJoin "." "llms-full.txt") (.ok (fullContentOutput demoRead ["r/a.md"]))

theorem writeFiles_truncate_spec_witness :
    c3store (pathJoin "." "llms-full.txt") = .ok "hello" ∧
    c3store (pathJoin "." "llms.txt") =
      .ok (linkIndexContent (pathJoin "." "llms.txt") ["a.md"]) := by
  have h := writeFiles_truncate_spec emptyStore demoRead "llms.txt"
    "llms-full.txt" ["a.md"] ["r/a.md"] "." false c3store rfl
  exact ⟨h.1.trans (by decide), h.2 (by decide)⟩

/-- C7: two successive pipeline runs over the same tree, read oracle and
configuration leave byte-identical contents in both output files. -/
theorem pipeline_idempotent (tree : FsList) (read : String → String)
    (dirPath : String) (skip exclude : List String) (maxSize : Option Nat)
    (lf lff outDir : String) (backup : Bool) (σ σ1 σ2 : Store)
    (h1 : runPipeline tree read dirPath skip exclude maxSize lf lff outDir
      backup σ = .ok σ1)
    (h2 : runPipeline tree read dirPath skip exclude maxSize lf lff outDir
      backup σ1 = .ok σ2) :
    σ2 (pathJoin outDir lf) = σ1 (pathJoin outDir lf) ∧
    σ2 (pathJoin outDir lff) = σ1 (pathJoin outDir lff) := by
  unfold runPipeline at h1 h2
  have c1 := writeFiles_ok_contents _ _ _ _ _ _ _ _ _ h1
  have c2 := writeFiles_ok_contents _ _ _ _ _ _ _ _ _ h2
  constructor
  · by_cases hne : pathJoin outDir lf = pathJoin outDir lff
    · rw [hne, c1.1, c2.1]
    · rw [c1.2 hne, c2.2 hne]
  · rw [c1.1, c2.1]

/-- The demo tree: one markdown file at the root. -/
def c7tree : FsList := .file "a.md" 5 "hello" .nil

/-- The store left by the first demo run. -/
def c7σ1 : Store :=
  setFile (setFile emptyStore (pathJoin "." "llms.txt")
    (.ok (linkIndexContent (pathJoin "." "llms.txt")
      (getDirectory "r" "r" [] [] none c7tree).1)))
    (pathJoin "." "llms-full.txt")
    (.ok (fullContentOutput demoRead (getDirectory "r" "r" [] [] none c7tree).2))

/-- The store left by the second demo run. -/
def c7σ2 : Store :=
  setFile (setFile c7σ1 (pathJoin "." "llms.txt")
    (.ok (linkIndexContent (pathJoin "." "llms.txt")
      (getDirectory "r" "r" [] [] none c7tree).1)))
    (pathJoin "." "llms-full.txt")
    (.ok (fullContentOutput demoRead (getDirectory "r" "r" [] [] none c7tree).2))

theorem pipeline_idempotent_witness :
    c7σ2 (pathJoin "." "llms.txt") = c7σ1 (pathJoin "." "llms.txt") ∧
    c7σ2 (pathJoin "." "llms-full.txt") = c7σ1 (pathJoin "." "llms-full.txt") :=
  pipeline_idempotent c7tree demoRead "r" [] [] none "llms.txt" "llms-full.txt"
    "." false emptyStore c7σ1 c7σ2 rfl rfl

/-- C8: with backup enabled, a missing output file is silently skipped and
the run proceeds; an existing output file is copied to its sibling ".bak"
path before being overwritten; and any non-NotFound failure during either
backup is propagated, terminating the run before anything is written. -/
theorem backup_behavior_spec (σ : Store) (read : String → String)
    (lf lff : String) (files fullPaths : List String) (outDir : String) :
    (σ (pathJoin outDir lf) = .absent → σ (pathJoin outDir lff) = .absent →
      writeFiles σ read lf lff files fullPaths outDir true =
        .ok (setFile
          (setFile σ (pathJoin outDir lf)
            (.ok (linkIndexContent (pathJoin outDir lf) files)))
          (pathJoin outDir lff) (.ok (fullContentOutput read fullPaths)))) ∧
    (∀ c1 c2, σ (pathJoin outDir lf) = .ok c1 →
      σ (pathJoin outDir lff) = .ok c2 →
      pathJoin outDir lf ≠ pathJoin outDir lff →
      pathJoin outDir lff ≠ pathJoin outDir lf ++ ".bak" →
      pathJoin outDir lf ≠ pathJoin outDir lff ++ ".bak" →
      pathJoin outDir lf ++ ".bak" ≠ pathJoin outDir lff ++ ".bak" →
      ∃ σ', writeFiles σ read lf lff files fullPaths outDir true = .ok σ' ∧
        σ' (pathJoin outDir lf ++ ".bak") = .ok c1 ∧
        σ' (pathJoin outDir lff ++ ".bak") = .ok c2 ∧
        σ' (pathJoin outDir lf) =
          .ok (linkIndexContent (pathJoin outDir lf) files) ∧
        σ' (pathJoin outDir lff) = .ok (fullContentOutput read fullPaths)) ∧
    (σ (pathJoin outDir lf) = .faulty →
      writeFiles σ read lf lff files fullPaths outDir true = .error .other) ∧
    (σ (pathJoin outDir lf) = .absent → σ (pathJoin outDir lff) = .faulty →
      writeFiles σ read lf lff files fullPaths outDir true = .error .other) := by
  refine ⟨fun h1 h2 => ?_, fun c1 c2 h1 h2 hne h3 h4 h5 => ?_,
    fun h1 => ?_, fun h1 h2 => ?_⟩
  · simp [writeFiles, backupPhase, backupFile, h1, h2]
  · refine ⟨setFile
      (setFile
        (setFile (setFile σ (pathJoin outDir lf ++ ".bak") (.ok c1))
          (pathJoin outDir lff ++ ".bak") (.ok c2))
        (pathJoin outDir lf) (.ok (linkIndexContent (pathJoin outDir lf) files)))
      (pathJoin outDir lff) (.ok (fullContentOutput read fullPaths)),
      ?_, ?_, ?_, ?_, ?_⟩
    · simp [writeFiles, backupPhase, backupFile, h1, h2, setFile, h3]
    · simp [setFile, Ne.symm h3, append_bak_ne, h5]
    · have hb1 : pathJoin outDir lff ++ ".bak" ≠ pathJoin outDir lff :=
        append_bak_ne _
      have hb2 : pathJoin outDir lff ++ ".bak" ≠ pathJoin outDir lf :=
        fun h => h4 h.symm
      simp [setFile, hb1, hb2]
    · have hb3 : pathJoin outDir lf ≠ pathJoin outDir lf ++ ".bak" :=
        fun h => append_bak_ne _ h.symm
      simp [setFile, hne, hb3, h4]
    · simp [setFile]
  · simp [writeFiles, backupPhase, backupFile, h1]
  · simp [writeFiles, backupPhase, backupFile, h1, h2]

/-- A store holding stale contents at both output paths. -/
def c8σ : Store := fun p =>
  if p = pathJoin "." "llms.txt" then .ok "oldindex"
  else if p = pathJoin "." "llms-full.txt" then .ok "oldfull"
  else .absent

theorem backup_behavior_spec_witness :
    ∃ σ', writeFiles c8σ demoRead "llms.txt" "llms-full.txt" ["a.md"]
        ["r/a.md"] "." true = .ok σ' ∧
      σ' (pathJoin "." "llms.txt" ++ ".bak") = .ok "oldindex" ∧
      σ' (pathJoin "." "llms-full.txt" ++ ".bak") = .ok "oldfull" ∧
      σ' (pathJoin "." "llms.txt") =
        .ok (linkIndexContent (pathJoin "." "llms.txt") ["a.md"]) ∧
      σ' (pathJoin "." "llms-full.txt") =
        .ok (fullContentOutput demoRead ["r/a.md"]) :=
  (backup_behavior_spec c8σ demoRead "llms.txt" "llms-full.txt" ["a.md"]
    ["r/a.md"] ".").2.1 "oldindex" "oldfull" (by decide) (by decide)
    (by decide) (by decide) (by decide) (by decide)

/-- C4: for a file accepted by the extension filters, a size of exactly
maxSize*1024*1024 bytes is still included, one byte more is excluded, and
with no configured maximum every size is included. -/
theorem maxSize_boundary_spec (M : Nat) (dirPath basePath name content : String)
    (skip exclude : List String) (h : matchesFile name exclude = true) :
    getDirectory dirPath basePath skip exclude (some M)
        (.file name (M * 1024 * 1024) content .nil) =
      ([pathRelative basePath (pathJoin dirPath name)],
        [pathJoin dirPath name]) ∧
    getDirectory dirPath basePath skip exclude (some M)
        (.file name (M * 1024 * 1024 + 1) content .nil) = ([], []) ∧
    ∀ size, getDirectory dirPath basePath skip exclude none
        (.file name size content .nil) =
      ([pathRelative basePath (pathJoin dirPath name)],
        [pathJoin dirPath name]) := by
  refine ⟨?_, ?_, fun size => ?_⟩
  · simp [getDirectory, walkList, includeFile, h, sizeOk]
  · have hlt : ¬ (M * 1024 * 1024 + 1 ≤ M * 1024 * 1024) := by omega
    simp [getDirectory, walkList, includeFile, h, sizeOk, hlt]
  · simp [getDirectory, walkList, includeFile, h, sizeOk]

theorem maxSize_boundary_spec_witness :
    getDirectory "r" "r" [] [] (some 1)
        (.file "a.md" (1 * 1024 * 1024) "" .nil) =
      ([pathRelative "r" (pathJoin "r" "a.md")], [pathJoin "r" "a.md"]) ∧
    getDirectory "r" "r" [] [] (some 1)
        (.file "a.md" (1 * 1024 * 1024 + 1) "" .nil) = ([], []) ∧
    ∀ size, getDirectory "r" "r" [] [] none (.file "a.md" size "" .nil) =
      ([pathRelative "r" (pathJoin "r" "a.md")], [pathJoin "r" "a.md"]) :=
  maxSize_boundary_spec 1 "r" "r" "a.md" "" [] [] (by decide)

/-- Whether the last character of the list is not whitespace; vacuously
true for the empty list. -/
def lastNonWs : List Char → Bool
  | [] => true
  | [c] => !c.isWhitespace
  | _ :: c :: cs => lastNonWs (c :: cs)

/-- Content on which segment counting and word counting agree: nonempty,
starting and ending with a non-whitespace character. -/
def cleanContent (s : String) : Bool :=
  match s.data with
  | [] => false
  | c :: cs => !c.isWhitespace && lastNonWs (c :: cs)

theorem runs_compl :
    ∀ l : List Char, lastNonWs l = true →
      (runsAux (fun c => !c.isWhitespace) true l =
        runsAux (fun c => c.isWhitespace) false l) ∧
      (l ≠ [] → runsAux (fun c => !c.isWhitespace) false l =
        runsAux (fun c => c.isWhitespace) true l + 1) := by
  intro l
  induction l with
  | nil => intro _; exact ⟨rfl, fun hne => absurd rfl hne⟩
  | cons c cs ih =>
    intro h
    cases cs with
    | nil =>
      have hc : c.isWhitespace = false := by
        simpa [lastNonWs] using h
      exact ⟨by simp [runsAux, hc], fun _ => by simp [runsAux, hc]⟩
    | cons c2 cs2 =>
      have h2 : lastNonWs (c2 :: cs2) = true := by
        simpa [lastNonWs] using h
      have ihh := ih h2
      have i1 := ihh.1
      have i2 := ihh.2 (by simp)
      refine ⟨?_, fun _ => ?_⟩ <;>
      · rcases Bool.eq_false_or_eq_true c.isWhitespace with hc | hc <;>
        rcases Bool.eq_false_or_eq_true c2.isWhitespace with hc2 | hc2 <;>
        simp [runsAux, hc, hc2] at i1 i2 ⊢ <;>
        omega

theorem splitWsLen_eq_wordCount (s : String) (h : cleanContent s = true) :
    splitWsLen s = wordCount s := by
  unfold splitWsLen wordCount
  unfold cleanContent at h
  cases hd : s.data with
  | nil => rw [hd] at h; simp at h
  | cons c cs =>
    rw [hd] at h
    simp at h
    obtain ⟨hc, hlast⟩ := h
    have hcs : lastNonWs cs = true := by
      cases cs with
      | nil => rfl
      | cons c2 cs2 => simpa [lastNonWs] using hlast
    have hr := (runs_compl cs hcs).1
    simp [runsAux, hc]
    omega

/-- C5 (amended): analyze reports the matched file count, the distinct
parent-folder count, the per-file sum of the number of segments produced by
splitting the content on whitespace runs (which equals the
whitespace-delimited word count whenever every file's content is nonempty
and starts and ends with non-whitespace), and an average size (in KB) whose
value times 1024 times the file count is the total byte size — and an
analyze run exits without writing either output file. -/
theorem analyze_report_spec (read : String → String) (statSize : String → Nat)
    (files fullPaths : List String) :
    (analyzeOption read statSize files fullPaths).fileCount = files.length ∧
    (analyzeOption read statSize files fullPaths).folderCount =
      ((fullPaths.map parentDir).dedup).length ∧
    (analyzeOption read statSize files fullPaths).totalWords =
      (fullPaths.map (fun p => splitWsLen (read p))).sum ∧
    ((∀ p ∈ fullPaths, cleanContent (read p) = true) →
      (analyzeOption read statSize files fullPaths).totalWords =
        (fullPaths.map (fun p => wordCount (read p))).sum) ∧
    (files ≠ [] →
      averageKB (analyzeOption read statSize files fullPaths) * 1024 *
        (files.length : ℚ) = ((fullPaths.map statSize).sum : ℚ)) ∧
    (∀ (tree : FsList) (read2 : String → String) (dirPath : String)
      (skip exclude : List String) (maxSize : Option Nat)
      (preview summary : Bool) (ans lf lff outDir : String),
      runMain tree read2 dirPath skip exclude maxSize preview true summary
        ans lf lff outDir = none) := by
  refine ⟨rfl, rfl, rfl, fun hclean => ?_, fun hne => ?_, ?_⟩
  · exact congrArg List.sum
      (List.map_congr_left (fun p hp => splitWsLen_eq_wordCount _ (hclean p hp)))
  · have hL : (files.length : ℚ) ≠ 0 := by
      have hl : files.length ≠ 0 := fun h0 => hne (List.eq_nil_of_length_eq_zero h0)
      exact_mod_cast hl
    unfold averageKB analyzeOption
    field_simp
    ring
  · intro tree read2 dirPath skip exclude maxSize preview summary ans lf lff outDir
    simp [runMain]

theorem analyze_report_spec_witness :
    (analyzeOption demoRead (fun _ => 8) ["a.md"] ["r/a.md"]).totalWords =
      ((["r/a.md"] : List String).map (fun p => wordCount (demoRead p))).sum ∧
    averageKB (analyzeOption demoRead (fun _ => 8) ["a.md"] ["r/a.md"]) * 1024 *
      (((["a.md"] : List String).length : ℕ) : ℚ) =
      (((["r/a.md"] : List String).map (fun _ => (8 : Nat))).sum : ℚ) := by
  have h := analyze_report_spec demoRead (fun _ => 8) ["a.md"] ["r/a.md"]
  exact ⟨h.2.2.2.1 (by decide), h.2.2.2.2.1 (by decide)⟩

/-- C5 counterexample: the reported word total is not the
whitespace-delimited word count — a single matched file whose content is
"one two" followed by a newline has two words but is reported as 3,
because splitting "one two\n" on whitespace runs yields a trailing empty
segment. -/
theorem analyze_wordcount_counterexample :
    (analyzeOption (fun _ => "one two\n") (fun _ => 8) ["a.txt"]
        ["a.txt"]).totalWords ≠
      ((["a.txt"] : List String).map
        (fun p => wordCount ((fun _ => "one two\n") p))).sum := by decide

/-- C6 (amended): a preview run whose confirmation answer does not
lowercase to "y" exits without writing any output file; a confirmed
preview run continues processing (see the counterexample). -/
theorem preview_unconfirmed_no_write (tree : FsList) (read : String → String)
    (dirPath : String) (skip exclude : List String) (maxSize : Option Nat)
    (analyze summary : Bool) (ans lf lff outDir : String)
    (h : (stringToLower ans == "y") = false) :
    runMain tree read dirPath skip exclude maxSize true analyze summary
      ans lf lff outDir = none := by
  simp [runMain, h]

theorem preview_unconfirmed_no_write_witness :
    runMain (.file "a.md" 1 "hello" .nil) demoRead "r" [] [] none true false
      false "n" "llms.txt" "llms-full.txt" "." = none :=
  preview_unconfirmed_no_write (.file "a.md" 1 "hello" .nil) demoRead "r" []
    [] none false false "n" "llms.txt" "llms-full.txt" "." (by decide)

/-- C6 counterexample: a preview run confirmed with "y" does write the
output files — here a single-file tree produces the link index and the
full-content dump, so preview mode does not always leave the outputs
unwritten. -/
theorem preview_confirmed_writes_counterexample :
    runMain (.file "a.md" 1 "hello" .nil) (fun _ => "hello") "r" [] [] none
      true false false "y" "llms.txt" "llms-full.txt" "." =
      some ("# llms\n\n- [a.md](a.md)", "hello") := by decide

/-- C9: the traversal returns files and fullPaths arrays of equal length
with files[i] equal to fullPaths[i] made relative to the traversal root,
and the interactive confirmation loop keeps the two arrays aligned at
equal indices, selecting a subsequence of the matched pairs. -/
theorem alignment_invariant_spec (dirPath basePath : String)
    (skip exclude : List String) (maxSize : Option Nat) (tree : FsList)
    (answer : Nat → String → String) :
    (getDirectory dirPath basePath skip exclude maxSize tree).1 =
      (getDirectory dirPath basePath skip exclude maxSize tree).2.map
        (fun p => pathRelative basePath p) ∧
    (∀ (g : String → String) (fullPaths files : List String) (i : Nat),
      files = fullPaths.map g →
      (interactiveConfirm answer i files fullPaths).1 =
        (interactiveConfirm answer i files fullPaths).2.map g ∧
      List.Sublist
        ((interactiveConfirm answer i files fullPaths).1.zip
          (interactiveConfirm answer i files fullPaths).2)
        (files.zip fullPaths)) := by
  constructor
  · exact getDirectory_fst_eq dirPath basePath skip exclude maxSize tree
  · intro g fullPaths
    induction fullPaths with
    | nil =>
      intro files i hf; subst hf
      simp [interactiveConfirm]
    | cons p ps ih =>
      intro files i hf; subst hf
      have ihh := ih (ps.map g) (i + 1) rfl
      by_cases hy : (stringToLower (answer i (g p)) == "y") = true
      · simp only [List.map_cons, interactiveConfirm, hy, if_true]
        exact ⟨by simp [ihh.1], List.Sublist.cons₂ _ ihh.2⟩
      · have hy' : (stringToLower (answer i (g p)) == "y") = false := by
          simpa using hy
        simp only [List.map_cons, interactiveConfirm, hy', if_false]
        exact ⟨ihh.1, List.Sublist.cons _ ihh.2⟩

/-- The confirmation oracle of the concrete example: accept the files at
even prompt indices. -/
def ansOdd : Nat → String → String := fun i _ => if i % 2 = 0 then "y" else "n"

theorem alignment_invariant_spec_witness :
    (interactiveConfirm ansOdd 0 ["a.md", "b.md"] ["r/a.md", "r/b.md"]).1 =
      (interactiveConfirm ansOdd 0 ["a.md", "b.md"] ["r/a.md", "r/b.md"]).2.map
        (fun p => pathRelative "r" p) ∧
    List.Sublist
      ((interactiveConfirm ansOdd 0 ["a.md", "b.md"] ["r/a.md", "r/b.md"]).1.zip
        (interactiveConfirm ansOdd 0 ["a.md", "b.md"] ["r/a.md", "r/b.md"]).2)
      ((["a.md", "b.md"] : List String).zip ["r/a.md", "r/b.md"]) :=
  (alignment_invariant_spec "r" "r" [] [] none .nil ansOdd).2
    (fun p => pathRelative "r" p) ["r/a.md", "r/b.md"] ["a.md", "b.md"] 0
    (by decide)

/-- C10: both extension tests are raw suffix comparisons on the whole
filename: every matched file's name ends with some recognized extension
and with no excluded entry, so a file whose name ends with the characters
of an exclude entry never appears — e.g. exclude "txt" also rules out
"notes.mytxt", and exclude "d" rules out "a.md" even though "d" is not a
dot-led extension. -/
theorem suffix_filter_spec (dirPath basePath : String)
    (skip exclude : List String) (maxSize : Option Nat) (tree : FsList) :
    (∀ p ∈ (getDirectory dirPath basePath skip exclude maxSize tree).2,
      ∃ o ∈ enumFiles dirPath [] tree, p = o.path ∧
        SUPPORTED_EXTENSIONS.any (fun ext => strEndsWith o.name ext) = true ∧
        exclude.any (fun ext => strEndsWith o.name ext) = false) ∧
    getDirectory "r" "r" [] ["txt"] none (.file "notes.mytxt" 1 "" .nil) =
      ([], []) ∧
    getDirectory "r" "r" [] ["d"] none (.file "a.md" 1 "" .nil) = ([], []) := by
  refine ⟨?_, by decide, by decide⟩
  intro p hp
  rw [getDirectory_eq_filter] at hp
  simp only [List.mem_map] at hp
  obtain ⟨o, ho, hoe⟩ := hp
  subst hoe
  rw [List.mem_filter] at ho
  have h2 := ho.2
  simp only [includedOcc, includeFile, matchesFile, Bool.and_eq_true,
    Bool.not_eq_true'] at h2
  exact ⟨o, ho.1, rfl, h2.2.1.1, h2.2.1.2⟩

theorem suffix_filter_spec_witness :
    ("r/a.md" ∈ (getDirectory "r" "r" [] ["zz"] none
      (.file "a.md" 1 "" .nil)).2) ∧
    (∃ o ∈ enumFiles "r" [] (.file "a.md" 1 "" .nil), "r/a.md" = o.path ∧
      SUPPORTED_EXTENSIONS.any (fun ext => strEndsWith o.name ext) = true ∧
      (["zz"] : List String).any (fun ext => strEndsWith o.name ext) = false) :=
  ⟨by decide, (suffix_filter_spec "r" "r" [] ["zz"] none
    (.file "a.md" 1 "" .nil)).1 "r/a.md" (by decide)⟩

end Docs2llms
